import Mathlib

/-!
Verification of the BioNewsBot notification-delivery pipeline against its
natural-language specification.

Source embeddings come from the repository:
  * the `notifications` table and the `notification_status` enum of the
    PostgreSQL schema in `database/README.md`;
  * the `notification_history` table of `notifications/README.md`.

Components whose implementation is not in the repository tree (the Python
services `notification_manager.py`, `rate_limiter.py` and the interaction
handlers are only described by the READMEs) are modelled from the
specification; each such definition carries a doc comment beginning
`Modelled from the spec:`.
-/

namespace BioNewsBot

/-! Part 1: embedding of the PostgreSQL schema in `database/README.md`. -/

/-- The PostgreSQL enum from `database/README.md`:
`CREATE TYPE notification_status AS ENUM ('pending', 'sent', 'failed', 'cancelled')`. -/
inductive NotificationStatus where
  | pending
  | sent
  | failed
  | cancelled
  deriving DecidableEq, Repr

/-- The SQL label of a `NotificationStatus` value, exactly the strings of the
`CREATE TYPE` statement. -/
def NotificationStatus.label : NotificationStatus → String
  | .pending => "pending"
  | .sent => "sent"
  | .failed => "failed"
  | .cancelled => "cancelled"

/-- A row of the `insights` table; only the primary key `id` is relevant to
the claims (UUIDs are modelled as naturals). -/
structure InsightRow where
  id : Nat
  deriving DecidableEq, Repr

/-- A row of the `notifications` table from `database/README.md`:
`id UUID PRIMARY KEY`, `insight_id UUID REFERENCES insights(id) ON DELETE
CASCADE` (nullable: the column has no NOT NULL), `channel VARCHAR(50) NOT
NULL`, `recipient VARCHAR(255) NOT NULL`, `status notification_status
DEFAULT 'pending'`, `retry_count INTEGER DEFAULT 0`.  The free-text columns
`subject`/`message`/`metadata`/`error_message` and the timestamps are
omitted: no claim constrains them. -/
structure NotificationRow where
  id : Nat
  insight_id : Option Nat
  channel : String
  recipient : String
  status : NotificationStatus
  retry_count : Nat
  deriving DecidableEq, Repr

/-- A database state for the two tables the claims are about. -/
structure DBState where
  insights : List InsightRow
  notifications : List NotificationRow
  deriving DecidableEq, Repr

/-- Validity of a database state under exactly the constraints the schema
declares: primary-key uniqueness on `insights.id` and `notifications.id`,
and referential integrity of the nullable foreign key
`notifications.insight_id REFERENCES insights(id)`.  The schema declares no
uniqueness constraint on `(insight_id, channel)` or any other column of
`notifications`. -/
def dbValid (db : DBState) : Prop :=
  (db.insights.map InsightRow.id).Nodup ∧
  (db.notifications.map NotificationRow.id).Nodup ∧
  ∀ r ∈ db.notifications,
    r.insight_id = none ∨ ∃ i ∈ db.insights, r.insight_id = some i.id

instance (db : DBState) : Decidable (dbValid db) := by
  unfold dbValid; exact inferInstance

/-- Deletion of an insight row with the schema's `ON DELETE CASCADE` action
on `notifications.insight_id`: the insight row is removed and so is every
notification row whose `insight_id` references it. -/
def deleteInsight (db : DBState) (iid : Nat) : DBState :=
  { insights := db.insights.filter (fun i => i.id ≠ iid),
    notifications := db.notifications.filter (fun r => r.insight_id ≠ some iid) }

/-- The status names that §4.5 of the spec assigns to a Notification,
written from the spec's words (for comparison with the schema enum):
`pending`, `queued`, `sending`, `sent`, `delivered`, `failed`,
`dead_lettered`. -/
def specStatusNames : List String :=
  ["pending", "queued", "sending", "sent", "delivered", "failed", "dead_lettered"]

/-! Part 2: embedding of the `notification_history` table of
`notifications/README.md`. -/

/-- A row of the `notification_history` table from `notifications/README.md`:
`id UUID PRIMARY KEY`, `insight_id UUID NOT NULL`, `channel VARCHAR(255) NOT
NULL`, `status VARCHAR(50) NOT NULL DEFAULT 'pending'` (a free string, not
an enum), `attempts INTEGER DEFAULT 0`, `last_error TEXT`, `read_by TEXT[]`,
`acknowledged_by VARCHAR(255)`.  The Slack message ids and the timestamp
columns are omitted: no claim constrains them. -/
structure HistoryRow where
  id : Nat
  insight_id : Nat
  channel : String
  status : String
  attempts : Nat
  last_error : Option String
  read_by : List String
  acknowledged_by : Option String
  deriving DecidableEq, Repr

/-! Part 3: the pipeline operations.  The Python services implementing them
are not in the repository tree, so they are modelled from the spec. -/

/-- The delivery ledger owned by the IngressAdapter: the
`notification_history` rows plus a fresh-id counter for created rows. -/
structure Ledger where
  rows : List HistoryRow
  nextId : Nat
  deriving DecidableEq, Repr

/-- Does a history row match the dedup key `(insight_id, channel_target)`? -/
def keyMatch (i : Nat) (c : String) (r : HistoryRow) : Bool :=
  r.insight_id == i && r.channel == c

/-- The `notification_history` row that an ingest call creates for the
dedup key `(i, c)`, recorded after the atomic `pending → queued`
transition of §4.1. -/
def freshRow (l : Ledger) (i : Nat) (c : String) : HistoryRow :=
  { id := l.nextId, insight_id := i, channel := c, status := "queued",
    attempts := 0, last_error := none, read_by := [], acknowledged_by := none }

/-- Modelled from the spec: `IngressAdapter.ingest` (§4.1), whose Python
implementation (`services/notification_manager.py`) is absent from the
tree.  It computes the dedup key `(insight_id, channel_target)`; if a row
with that key already exists it returns the existing id without creating
work; otherwise it creates a fresh row and returns its id. -/
def ingest (l : Ledger) (i : Nat) (c : String) : Nat × Ledger :=
  match l.rows.find? (keyMatch i c) with
  | some r => (r.id, l)
  | none =>
      (l.nextId, { rows := l.rows ++ [freshRow l i c], nextId := l.nextId + 1 })

/-- A sequence of `n` `ingest` calls with the same dedup key, returning the
list of returned ids and the final ledger. -/
def ingestSeq (l : Ledger) (i : Nat) (c : String) : Nat → List Nat × Ledger
  | 0 => ([], l)
  | n + 1 =>
      let p := ingest l i c
      let q := ingestSeq p.2 i c n
      (p.1 :: q.1, q.2)

/-- Result of an `acknowledge` call; both constructors are successes from
the caller's perspective. -/
inductive AckResult where
  | acquired
  | already_acknowledged
  deriving DecidableEq, Repr

/-- Modelled from the spec: `InteractionProcessor.acknowledge` (§4.6), whose
implementation is absent from the tree.  A conditional write: it sets
`acknowledged_by` only if the column is currently unset; otherwise it is a
no-op confirmation, not an error. -/
def acknowledge (r : HistoryRow) (actor : String) : HistoryRow × AckResult :=
  match r.acknowledged_by with
  | none => ({ r with acknowledged_by := some actor }, .acquired)
  | some _ => (r, .already_acknowledged)

/-- A sequence of `acknowledge` calls applied to one row. -/
def ackSeq (r : HistoryRow) : List String → HistoryRow
  | [] => r
  | a :: rest => ackSeq (acknowledge r a).1 rest

/-- Modelled from the spec: `InteractionProcessor.mark_read` (§4.6), whose
implementation is absent from the tree.  A set-insert into `read_by`:
inserting an actor already present is a no-op. -/
def markRead (r : HistoryRow) (actor : String) : HistoryRow :=
  if actor ∈ r.read_by then r else { r with read_by := r.read_by ++ [actor] }

/-- A sequence of `mark_read` calls applied to one row. -/
def markReadSeq (r : HistoryRow) : List String → HistoryRow
  | [] => r
  | a :: rest => markReadSeq (markRead r a) rest

/-- Modelled from the spec: the Notification status values of the state
machine in §4.5, as stored in the free-string `notification_history.status`
column by the pipeline services (absent from the tree). -/
inductive PStatus where
  | pending
  | queued
  | sending
  | sent
  | delivered
  | failed
  | dead_lettered
  deriving DecidableEq, Repr

/-- The priorities of §3: `high | normal`. -/
inductive Priority where
  | high
  | normal
  deriving DecidableEq, Repr

/-- The Channel Client outcomes of §6: success, transient_error,
permanent_error, rate_limited. -/
inductive DeliveryResult where
  | success
  | transient_error
  | permanent_error
  | rate_limited
  deriving DecidableEq, Repr

/-- The fields of a Notification that the delivery worker reads and writes. -/
structure Notif where
  status : PStatus
  attempts : Nat
  priority : Priority
  deriving DecidableEq, Repr

/-- A re-enqueue request produced by a worker: the lane to re-enter and the
delay before the entry becomes due. -/
structure Requeue where
  priority : Priority
  delay : ℚ
  deriving DecidableEq

/-- The delivery configuration of §6: backoff `base`/`cap`/`jitter_window`,
`max_attempts`, and the short re-enqueue delay used on a rate-limit denial. -/
structure DeliveryCfg where
  base : ℚ
  cap : ℚ
  jitter_window : ℚ
  max_attempts : Nat
  requeue_delay : ℚ
  deriving DecidableEq

/-- Modelled from the spec: the default `max_attempts` of §4.4 is 5. -/
def maxAttemptsDefault : Nat := 5

/-- Modelled from the spec: the retry delay of §4.4,
`delay = min(base * 2^attempts, cap) + random(0, jitter_window)`; the jitter
draw is passed in as an argument. -/
def backoffDelay (cfg : DeliveryCfg) (attempts : Nat) (jitter : ℚ) : ℚ :=
  min (cfg.base * 2 ^ attempts) cfg.cap + jitter

/-- Modelled from the spec: one delivery step of a `DeliveryWorkerPool`
worker (§4.4) on a dequeued notification, given the Channel Client outcome
(the rate-limiter denial is surfaced as `rate_limited`).  Returns the
updated notification and an optional re-enqueue request.
  * `rate_limited`: the notification is untouched (no attempt consumed) and
    the entry is re-enqueued in its own lane after a short jittered delay;
  * `success`: the attempt counts and the status becomes `sent`;
  * `permanent_error`: the attempt counts and the status becomes `failed`,
    no retry;
  * `transient_error`: the attempt counts; below `max_attempts` the entry
    is re-enqueued at the same priority after the backoff delay, otherwise
    the status becomes `dead_lettered`. -/
def workerStep (cfg : DeliveryCfg) (n : Notif) (jitter : ℚ) :
    DeliveryResult → Notif × Option Requeue
  | .rate_limited =>
      (n, some { priority := n.priority, delay := cfg.requeue_delay + jitter })
  | .success =>
      ({ n with status := .sent, attempts := n.attempts + 1 }, none)
  | .permanent_error =>
      ({ n with status := .failed, attempts := n.attempts + 1 }, none)
  | .transient_error =>
      if n.attempts + 1 < cfg.max_attempts then
        ({ n with status := .queued, attempts := n.attempts + 1 },
          some { priority := n.priority,
                 delay := backoffDelay cfg (n.attempts + 1) jitter })
      else
        ({ n with status := .dead_lettered, attempts := n.attempts + 1 }, none)

/-- The notification after `k` delivery attempts that all end in transient
failures (the jitter draws are given by `jit`). -/
def transientRun (cfg : DeliveryCfg) (jit : Nat → ℚ) (n : Notif) : Nat → Notif
  | 0 => n
  | k + 1 => (workerStep cfg (transientRun cfg jit n k) (jit k) .transient_error).1

/-- Modelled from the spec: the `RateLimitBucket` of §3, per
`channel_target` (`utils/rate_limiter.py` is absent from the tree). -/
structure Bucket where
  tokens : ℚ
  last_refill : ℚ
  deriving DecidableEq

/-- The continuous-refill computation: tokens accrue at `rate` per second
since `last_refill`, clamped at `capacity`. -/
def refillTokens (capacity rate : ℚ) (b : Bucket) (t : ℚ) : ℚ :=
  min capacity (b.tokens + (t - b.last_refill) * rate)

/-- Modelled from the spec: `RateLimiter.try_acquire` (§4.3), a single
refill-then-decrement-if-available step at time `t`: the bucket is refilled,
then one token is consumed if at least one is available. -/
def tryAcquire (capacity rate : ℚ) (b : Bucket) (t : ℚ) : Bool × Bucket :=
  let tk := refillTokens capacity rate b t
  if 1 ≤ tk then (true, { tokens := tk - 1, last_refill := t })
  else (false, { tokens := tk, last_refill := t })

/-- Runs `tryAcquire` on a time-ordered list of send attempts and returns
the number of granted tokens (= send invocations) and the final bucket. -/
def acquireRun (capacity rate : ℚ) (b : Bucket) : List ℚ → Nat × Bucket
  | [] => (0, b)
  | t :: ts =>
      let p := tryAcquire capacity rate b t
      let q := acquireRun capacity rate p.2 ts
      ((if p.1 then 1 else 0) + q.1, q.2)

/-- Modelled from the spec: the two-lane priority queue of §4.2 (the Python
queue of `services/notification_manager.py` is absent from the tree).  Each
lane is FIFO; `hstreak` counts the consecutive high-priority dequeues taken
since the last normal-priority dequeue. -/
structure PQState where
  high : List Nat
  normal : List Nat
  hstreak : Nat
  deriving DecidableEq, Repr

/-- Modelled from the spec: the weighted round-robin dequeue of §4.2 — take
from the high lane unless `W` consecutive high entries have already been
taken and the normal lane is non-empty, in which case one normal entry is
taken and the streak resets. -/
def pqDequeue (W : Nat) (q : PQState) : Option (Nat × Priority) × PQState :=
  match q.high, q.normal with
  | [], [] => (none, q)
  | h :: hs, [] =>
      (some (h, .high), { high := hs, normal := [], hstreak := q.hstreak + 1 })
  | [], n :: ns =>
      (some (n, .normal), { high := [], normal := ns, hstreak := 0 })
  | h :: hs, n :: ns =>
      if q.hstreak < W then
        (some (h, .high), { high := hs, normal := n :: ns, hstreak := q.hstreak + 1 })
      else
        (some (n, .normal), { high := h :: hs, normal := ns, hstreak := 0 })

/-- The queue state after one dequeue. -/
def pqNext (W : Nat) (q : PQState) : PQState := (pqDequeue W q).2

/-- Whether the dequeue from `q` takes a high-priority entry. -/
def tookHigh (W : Nat) (q : PQState) : Bool :=
  match (pqDequeue W q).1 with
  | some (_, .high) => true
  | _ => false

/-- A schema-valid `notifications` state holding two rows with the same
dedup key `(insight_id, channel) = (7, "slack")` under distinct primary
keys. -/
def dupKeyDB : DBState :=
  { insights := [{ id := 7 }],
    notifications :=
      [{ id := 1, insight_id := some 7, channel := "slack", recipient := "ops",
         status := .pending, retry_count := 0 },
       { id := 2, insight_id := some 7, channel := "slack", recipient := "ops",
         status := .pending, retry_count := 0 }] }

/-- A schema-valid `notifications` state holding one row whose status is
`cancelled`. -/
def cancelledDB : DBState :=
  { insights := [],
    notifications :=
      [{ id := 1, insight_id := none, channel := "slack", recipient := "ops",
         status := .cancelled, retry_count := 0 }] }

/-- A schema-valid `notifications` state holding one row whose `insight_id`
is NULL (the column is nullable: it has no NOT NULL). -/
def nullInsightDB : DBState :=
  { insights := [],
    notifications :=
      [{ id := 1, insight_id := none, channel := "slack", recipient := "ops",
         status := .pending, retry_count := 0 }] }

/-- A schema-valid state used to instantiate the cascade theorem: one
insight, one notification referencing it and one with a NULL reference. -/
def cascadeDB : DBState :=
  { insights := [{ id := 7 }],
    notifications :=
      [{ id := 1, insight_id := some 7, channel := "slack", recipient := "ops",
         status := .pending, retry_count := 0 },
       { id := 2, insight_id := none, channel := "email", recipient := "ops",
         status := .sent, retry_count := 0 }] }

/-- A ledger holding one row for an unrelated dedup key. -/
def ledgerEx : Ledger :=
  { rows := [{ id := 0, insight_id := 3, channel := "email", status := "sent",
               attempts := 1, last_error := none, read_by := [],
               acknowledged_by := none }],
    nextId := 1 }

/-- A queue with ten high-priority and six normal-priority entries, streak
counter at zero. -/
def pqEx : PQState :=
  { high := [1, 2, 3, 4, 5, 6, 7, 8, 9, 10],
    normal := [21, 22, 23, 24, 25, 26], hstreak := 0 }

/-- A token bucket that starts full at capacity 2, refilled at time 0. -/
def bucketEx : Bucket := { tokens := 2, last_refill := 0 }

/-- A delivery configuration: backoff base 1s capped at 60s, jitter window
2s, the spec's default `max_attempts`, re-enqueue delay 1s. -/
def cfgEx : DeliveryCfg :=
  { base := 1, cap := 60, jitter_window := 2, max_attempts := maxAttemptsDefault,
    requeue_delay := 1 }

/-- A queued high-priority notification with one attempt consumed. -/
def notifEx : Notif := { status := .queued, attempts := 1, priority := .high }

/-- A freshly queued normal-priority notification. -/
def notifEx0 : Notif := { status := .queued, attempts := 0, priority := .normal }

/-- A delivered `notification_history` row that nobody has acknowledged or
read yet. -/
def historyEx : HistoryRow :=
  { id := 5, insight_id := 7, channel := "slack", status := "sent",
    attempts := 1, last_error := none, read_by := [], acknowledged_by := none }

/-! Theorems. -/

/-- Claim C1, as stated, is false on the schema: `dupKeyDB` satisfies every
constraint the `notifications` schema declares, yet holds two Notification
records with the same `(insight_id, channel_target)` pair — the schema
declares no uniqueness constraint on the dedup key, so duplicate ingress
attempts are not made no-ops by a constraint at creation time. -/
theorem C1_counterexample :
    dbValid dupKeyDB ∧
    ¬ (dupKeyDB.notifications.filter
        (fun r => r.insight_id == some 7 && r.channel == "slack")).length ≤ 1 := by
  decide

theorem find?_append_of_none {α} (p : α → Bool) (l₁ l₂ : List α)
    (h : l₁.find? p = none) : (l₁ ++ l₂).find? p = l₂.find? p := by
  rw [List.find?_append, h, Option.none_or]

theorem keyMatch_freshRow (l : Ledger) (i : Nat) (c : String) :
    keyMatch i c (freshRow l i c) = true := by
  simp [keyMatch, freshRow]

theorem ingest_fresh (l : Ledger) (i : Nat) (c : String)
    (h : ∀ r ∈ l.rows, keyMatch i c r = false) :
    ingest l i c =
      (l.nextId, { rows := l.rows ++ [freshRow l i c], nextId := l.nextId + 1 }) := by
  unfold ingest
  rw [List.find?_eq_none.mpr (by intro x hx; simp [h x hx])]

theorem ingest_existing (l : Ledger) (i : Nat) (c : String) (r : HistoryRow)
    (h : l.rows.find? (keyMatch i c) = some r) : ingest l i c = (r.id, l) := by
  unfold ingest
  rw [h]

theorem ingestSeq_fixed (l : Ledger) (i : Nat) (c : String) (x : Nat)
    (h : ingest l i c = (x, l)) :
    ∀ n, ingestSeq l i c n = (List.replicate n x, l) := by
  intro n
  induction n with
  | zero => rfl
  | succ k ih => simp [ingestSeq, h, ih, List.replicate_succ]

/-- Claim C1 amended: the schemas declare no uniqueness constraint on
`(insight_id, channel)` — only the primary key is unique — so the
"at most one Notification per dedup_key" guarantee rests on the ingest
existence check alone: for every sequence of (sequential) `ingest` calls
with the same `(insight_id, channel_target)` against a ledger holding no
row for that key, exactly one row with that key exists afterwards and every
call returns that row's id. -/
theorem C1_amended (l : Ledger) (i : Nat) (c : String)
    (hfresh : ∀ r ∈ l.rows, keyMatch i c r = false) (n : Nat) :
    (ingestSeq l i c (n + 1)).1 = List.replicate (n + 1) l.nextId ∧
    ((ingestSeq l i c (n + 1)).2.rows.filter (keyMatch i c)).length = 1 := by
  have h1 := ingest_fresh l i c hfresh
  set l₁ : Ledger :=
    { rows := l.rows ++ [freshRow l i c], nextId := l.nextId + 1 } with hl₁
  have hfind : l₁.rows.find? (keyMatch i c) = some (freshRow l i c) := by
    rw [hl₁]
    show (l.rows ++ [freshRow l i c]).find? (keyMatch i c) = _
    rw [find?_append_of_none _ _ _
      (List.find?_eq_none.mpr (by intro x hx; simp [hfresh x hx]))]
    simp [List.find?, keyMatch_freshRow]
  have h2 : ingest l₁ i c = (l.nextId, l₁) := by
    have := ingest_existing l₁ i c (freshRow l i c) hfind
    simpa [freshRow] using this
  have h3 := ingestSeq_fixed l₁ i c l.nextId h2 n
  constructor
  · simp [ingestSeq, h1, h3, List.replicate_succ]
  · simp only [ingestSeq, h1, h3]
    rw [List.filter_append,
      List.filter_eq_nil_iff.mpr (by intro x hx; simp [hfresh x hx])]
    simp [keyMatch_freshRow]

/-- Witness for `C1_amended`: a ledger holding one unrelated row, three
ingest calls for the key `(7, "slack")`. -/
theorem C1_witness :
    (∀ r ∈ ledgerEx.rows, keyMatch 7 "slack" r = false) ∧
    ((ingestSeq ledgerEx 7 "slack" 3).1 = List.replicate 3 ledgerEx.nextId ∧
      ((ingestSeq ledgerEx 7 "slack" 3).2.rows.filter (keyMatch 7 "slack")).length = 1) :=
  ⟨by decide, C1_amended ledgerEx 7 "slack" (by decide) 2⟩

/-- Claim C2, as stated, is false on the schema: `cancelledDB` is
schema-valid, yet its notification's status is `cancelled`, which is not
among the seven states the spec assigns (`notification_status` is the enum
`pending`, `sent`, `failed`, `cancelled`). -/
theorem C2_counterexample :
    dbValid cancelledDB ∧
    ¬ ∀ r ∈ cancelledDB.notifications, r.status.label ∈ specStatusNames := by
  decide

/-- Claim C2 amended: every value of the `notification_status` enum — hence
every status a `notifications` row can carry — is one of `pending`, `sent`,
`failed`, `cancelled`, and none of the spec's states `queued`, `sending`,
`delivered`, `dead_lettered` is representable in that enum. -/
theorem C2_amended :
    ∀ r : NotificationRow,
      r.status.label ∈ ["pending", "sent", "failed", "cancelled"] ∧
      r.status.label ∉ ["queued", "sending", "delivered", "dead_lettered"] := by
  intro r
  rcases r with ⟨_, _, _, _, s, _⟩
  cases s <;> simp [NotificationStatus.label]

theorem tookHigh_true_step (W : Nat) (q : PQState) (hn : q.normal ≠ [])
    (h : tookHigh W q = true) :
    q.hstreak < W ∧ (pqNext W q).hstreak = q.hstreak + 1 := by
  rcases q with ⟨high, normal, st⟩
  cases normal with
  | nil => exact absurd rfl hn
  | cons n ns =>
      cases high with
      | nil => simp [tookHigh, pqDequeue] at h
      | cons hh hs =>
          by_cases hw : st < W
          · exact ⟨hw, by simp [pqNext, pqDequeue, hw]⟩
          · simp [tookHigh, pqDequeue, hw] at h

theorem tookHigh_false_step (W : Nat) (q : PQState) (hn : q.normal ≠ [])
    (h : tookHigh W q = false) : (pqNext W q).hstreak = 0 := by
  rcases q with ⟨high, normal, st⟩
  cases normal with
  | nil => exact absurd rfl hn
  | cons n ns =>
      cases high with
      | nil => simp [pqNext, pqDequeue]
      | cons hh hs =>
          by_cases hw : st < W
          · simp [tookHigh, pqDequeue, hw] at h
          · simp [pqNext, pqDequeue, hw]

/-- Claim C9: in every dequeue sequence whose normal lane stays non-empty, a
worker takes at most `W` consecutive high-priority entries: among any
`W + 1` consecutive dequeues there is at least one normal-priority dequeue
(so the normal lane receives at least one delivery attempt for every `W`
high-priority attempts). -/
theorem C9_starvation_bound (W : Nat) (q : PQState) (i : Nat)
    (hnorm : ∀ j, j ≤ i + W → ((pqNext W)^[j] q).normal ≠ []) :
    ∃ j, i ≤ j ∧ j ≤ i + W ∧ tookHigh W ((pqNext W)^[j] q) = false := by
  by_contra hcon
  push_neg at hcon
  have hall : ∀ j, i ≤ j → j ≤ i + W → tookHigh W ((pqNext W)^[j] q) = true := by
    intro j h1 h2
    have := hcon j h1 h2
    exact Bool.not_eq_false _ |>.mp this
  have hstreak : ∀ k, k ≤ W →
      ((pqNext W)^[i + k] q).hstreak = ((pqNext W)^[i] q).hstreak + k := by
    intro k
    induction k with
    | zero => intro _; rfl
    | succ k ih =>
        intro hk
        have hk' : k ≤ W := Nat.le_of_succ_le hk
        have hstep := tookHigh_true_step W ((pqNext W)^[i + k] q)
          (hnorm (i + k) (by omega)) (hall (i + k) (by omega) (by omega))
        have hiter : (pqNext W)^[i + (k + 1)] q = pqNext W ((pqNext W)^[i + k] q) := by
          rw [show i + (k + 1) = (i + k) + 1 from rfl]
          exact Function.iterate_succ_apply' (pqNext W) (i + k) q
        rw [hiter, hstep.2, ih hk']
        omega
  have hlast := tookHigh_true_step W ((pqNext W)^[i + W] q)
    (hnorm (i + W) (le_refl _)) (hall (i + W) (by omega) (le_refl _))
  have := hstreak W (le_refl W)
  omega

/-- Witness for `C9_starvation_bound` at `W = 4` on `pqEx`: among the first
five dequeues at least one is normal-priority. -/
theorem C9_witness :
    (∀ j, j ≤ 0 + 4 → ((pqNext 4)^[j] pqEx).normal ≠ []) ∧
    ∃ j, 0 ≤ j ∧ j ≤ 0 + 4 ∧ tookHigh 4 ((pqNext 4)^[j] pqEx) = false :=
  ⟨by decide, C9_starvation_bound 4 pqEx 0 (by decide)⟩

theorem tryAcquire_of_ge (capacity rate : ℚ) (b : Bucket) (t : ℚ)
    (h : 1 ≤ refillTokens capacity rate b t) :
    tryAcquire capacity rate b t =
      (true, { tokens := refillTokens capacity rate b t - 1, last_refill := t }) := by
  simp [tryAcquire, h]

theorem tryAcquire_of_lt (capacity rate : ℚ) (b : Bucket) (t : ℚ)
    (h : ¬ 1 ≤ refillTokens capacity rate b t) :
    tryAcquire capacity rate b t =
      (false, { tokens := refillTokens capacity rate b t, last_refill := t }) := by
  simp [tryAcquire, h]

/-- The run invariant for the token bucket: tokens stay non-negative, the
refill clock moves forward, every granted token is paid for by the initial
balance plus the refill accrued over the run, and the final refill time is
either the initial one or one of the attempt times. -/
theorem acquireRun_bound (capacity rate : ℚ) (hc : 0 ≤ capacity) (hr : 0 ≤ rate) :
    ∀ (ts : List ℚ) (b : Bucket), 0 ≤ b.tokens →
      List.Chain (· ≤ ·) b.last_refill ts →
      0 ≤ (acquireRun capacity rate b ts).2.tokens ∧
      b.last_refill ≤ (acquireRun capacity rate b ts).2.last_refill ∧
      ((acquireRun capacity rate b ts).1 : ℚ) + (acquireRun capacity rate b ts).2.tokens ≤
        b.tokens + ((acquireRun capacity rate b ts).2.last_refill - b.last_refill) * rate ∧
      ((acquireRun capacity rate b ts).2.last_refill = b.last_refill ∨
        (acquireRun capacity rate b ts).2.last_refill ∈ ts) := by
  intro ts
  induction ts with
  | nil =>
      intro b h0 _
      refine ⟨h0, le_refl _, ?_, Or.inl rfl⟩
      simp [acquireRun]
  | cons t ts ih =>
      intro b h0 hchain
      rw [List.chain_cons] at hchain
      obtain ⟨hbt, hchain'⟩ := hchain
      have hrefle : refillTokens capacity rate b t ≤
          b.tokens + (t - b.last_refill) * rate := min_le_right _ _
      have hrefnn : 0 ≤ refillTokens capacity rate b t := by
        refine le_min hc ?_
        have := mul_nonneg (sub_nonneg.mpr hbt) hr
        linarith
      have hring : ∀ u : ℚ, (t - b.last_refill) * rate + (u - t) * rate =
          (u - b.last_refill) * rate := by intro u; ring
      by_cases hok : 1 ≤ refillTokens capacity rate b t
      · set b' : Bucket :=
          { tokens := refillTokens capacity rate b t - 1, last_refill := t } with hb'
        have hrun : acquireRun capacity rate b (t :: ts) =
            (1 + (acquireRun capacity rate b' ts).1,
              (acquireRun capacity rate b' ts).2) := by
          simp [acquireRun, tryAcquire_of_ge capacity rate b t hok, hb']
        obtain ⟨ihnn, ihlr, ihbd, ihmem⟩ :=
          ih b' (by simp [hb']; linarith) (by simpa [hb'] using hchain')
        have hlr' : (t : ℚ) ≤ (acquireRun capacity rate b' ts).2.last_refill := by
          simpa [hb'] using ihlr
        have hbd' : ((acquireRun capacity rate b' ts).1 : ℚ) +
            (acquireRun capacity rate b' ts).2.tokens ≤
            (refillTokens capacity rate b t - 1) +
              ((acquireRun capacity rate b' ts).2.last_refill - t) * rate := by
          simpa [hb'] using ihbd
        rw [hrun]
        refine ⟨ihnn, le_trans hbt hlr', ?_, ?_⟩
        · push_cast
          have := hring (acquireRun capacity rate b' ts).2.last_refill
          linarith
        · rcases ihmem with hmem | hmem
          · exact Or.inr (by rw [hmem]; simp [hb'])
          · exact Or.inr (List.mem_cons_of_mem _ hmem)
      · set b' : Bucket :=
          { tokens := refillTokens capacity rate b t, last_refill := t } with hb'
        have hrun : acquireRun capacity rate b (t :: ts) =
            (0 + (acquireRun capacity rate b' ts).1,
              (acquireRun capacity rate b' ts).2) := by
          simp [acquireRun, tryAcquire_of_lt capacity rate b t hok, hb']
        obtain ⟨ihnn, ihlr, ihbd, ihmem⟩ :=
          ih b' (by simpa [hb'] using hrefnn) (by simpa [hb'] using hchain')
        have hlr' : (t : ℚ) ≤ (acquireRun capacity rate b' ts).2.last_refill := by
          simpa [hb'] using ihlr
        have hbd' : ((acquireRun capacity rate b' ts).1 : ℚ) +
            (acquireRun capacity rate b' ts).2.tokens ≤
            refillTokens capacity rate b t +
              ((acquireRun capacity rate b' ts).2.last_refill - t) * rate := by
          simpa [hb'] using ihbd
        rw [hrun]
        refine ⟨ihnn, le_trans hbt hlr', ?_, ?_⟩
        · push_cast
          have := hring (acquireRun capacity rate b' ts).2.last_refill
          linarith
        · rcases ihmem with hmem | hmem
          · exact Or.inr (by rw [hmem]; simp [hb'])
          · exact Or.inr (List.mem_cons_of_mem _ hmem)

/-- Claim C6: under the token bucket (continuous refill at `rate` per
second clamped at `capacity`, one token per send attempt), the number of
granted send invocations among any time-ordered attempts falling within a
rolling one-second window starting no later than the bucket's refill clock
never exceeds `rate + capacity`. -/
theorem C6_rate_limit_ceiling (capacity rate T : ℚ) (b : Bucket) (ts : List ℚ)
    (hc : 0 ≤ capacity) (hr : 0 ≤ rate)
    (h0 : 0 ≤ b.tokens) (hcap : b.tokens ≤ capacity)
    (hT : T ≤ b.last_refill)
    (hchain : List.Chain (· ≤ ·) b.last_refill ts)
    (hwin : ∀ t ∈ ts, t ≤ T + 1) :
    ((acquireRun capacity rate b ts).1 : ℚ) ≤ rate + capacity := by
  obtain ⟨hnn, hlr, hbd, hmem⟩ := acquireRun_bound capacity rate hc hr ts b h0 hchain
  rcases hmem with hmem | hmem
  · rw [hmem] at hbd
    simp only [sub_self, zero_mul, add_zero] at hbd
    linarith
  · have hfin : (acquireRun capacity rate b ts).2.last_refill ≤ T + 1 := hwin _ hmem
    have hdiff : (acquireRun capacity rate b ts).2.last_refill - b.last_refill ≤ 1 := by
      linarith
    have hmul : ((acquireRun capacity rate b ts).2.last_refill - b.last_refill) * rate ≤
        1 * rate := mul_le_mul_of_nonneg_right hdiff hr
    linarith

/-- Witness for `C6_rate_limit_ceiling`: a full bucket of capacity 2 at
rate 3 grants at most 5 sends among four attempts inside the window
from 0 to 1. -/
theorem C6_witness :
    List.Chain (· ≤ ·) bucketEx.last_refill [0, 0, 1, 1] ∧
    ((acquireRun 2 3 bucketEx [0, 0, 1, 1]).1 : ℚ) ≤ 3 + 2 :=
  ⟨by norm_num [List.chain_cons, bucketEx],
    C6_rate_limit_ceiling 2 3 0 bucketEx [0, 0, 1, 1] (by norm_num) (by norm_num)
      (by norm_num [bucketEx]) (by norm_num [bucketEx]) (by norm_num [bucketEx])
      (by norm_num [List.chain_cons, bucketEx])
      (by intro t ht; fin_cases ht <;> norm_num)⟩

theorem acknowledge_of_some (r : HistoryRow) (b : String) (x : String)
    (h : r.acknowledged_by = some x) :
    acknowledge r b = (r, .already_acknowledged) := by
  unfold acknowledge
  rw [h]

theorem ackSeq_of_some (rest : List String) (r : HistoryRow) (x : String)
    (h : r.acknowledged_by = some x) : ackSeq r rest = r := by
  induction rest generalizing r with
  | nil => rfl
  | cons b bs ih =>
      simp only [ackSeq, acknowledge_of_some r b x h]
      exact ih r h

/-- Claim C4: for every sequence of `acknowledge` calls on a row whose
`acknowledged_by` is unset, the first call's actor is recorded and the row
after the whole sequence carries exactly that actor; moreover any
`acknowledge` call on an already-acknowledged row leaves the row unchanged
and returns the `already_acknowledged` success, so `acknowledged_by` is
write-once with first-writer-wins. -/
theorem C4_first_writer_wins (r : HistoryRow) (h : r.acknowledged_by = none)
    (a : String) (rest : List String) :
    ackSeq r (a :: rest) = { r with acknowledged_by := some a } ∧
    (ackSeq r (a :: rest)).acknowledged_by = some a ∧
    ∀ (r' : HistoryRow) (b x : String), r'.acknowledged_by = some x →
      acknowledge r' b = (r', .already_acknowledged) := by
  have hstep : acknowledge r a = ({ r with acknowledged_by := some a }, .acquired) := by
    unfold acknowledge
    rw [h]
  have hrest : ackSeq { r with acknowledged_by := some a } rest =
      { r with acknowledged_by := some a } :=
    ackSeq_of_some rest _ a rfl
  refine ⟨?_, ?_, fun r' b x hx => acknowledge_of_some r' b x hx⟩
  · simp [ackSeq, hstep, hrest]
  · simp [ackSeq, hstep, hrest]

/-- Witness for `C4_first_writer_wins`: three actors acknowledge `historyEx`
in turn; alice wins and the row records only alice. -/
theorem C4_witness :
    historyEx.acknowledged_by = none ∧
    (ackSeq historyEx ["alice", "bob", "carol"] =
        { historyEx with acknowledged_by := some "alice" } ∧
      (ackSeq historyEx ["alice", "bob", "carol"]).acknowledged_by = some "alice" ∧
      ∀ (r' : HistoryRow) (b x : String), r'.acknowledged_by = some x →
        acknowledge r' b = (r', .already_acknowledged)) :=
  ⟨rfl, C4_first_writer_wins historyEx rfl "alice" ["bob", "carol"]⟩

theorem transientRun_below (cfg : DeliveryCfg) (jit : Nat → ℚ) (n : Notif)
    (h0 : n.attempts = 0) (hq : n.status = .queued) :
    ∀ k, k < cfg.max_attempts →
      transientRun cfg jit n k =
        { status := .queued, attempts := k, priority := n.priority } := by
  intro k
  induction k with
  | zero =>
      intro _
      show n = _
      rw [← h0, ← hq]
  | succ k ih =>
      intro hk
      have hkm : k < cfg.max_attempts := Nat.lt_of_succ_lt hk
      show (workerStep cfg (transientRun cfg jit n k) (jit k) .transient_error).1 = _
      rw [ih hkm]
      simp [workerStep, hk]

/-- Claim C3: a notification whose delivery attempts all end in transient
failures is dead-lettered after exactly `max_attempts` attempts — at every
attempt count below `max_attempts` it is still `queued` (re-enqueued, not
dropped), and at `max_attempts` it is `dead_lettered` with the counter equal
to `max_attempts`, never fewer and never more. -/
theorem C3_retry_bound (cfg : DeliveryCfg) (jit : Nat → ℚ) (n : Notif)
    (h0 : n.attempts = 0) (hq : n.status = .queued) (hM : 0 < cfg.max_attempts) :
    ((transientRun cfg jit n cfg.max_attempts).status = .dead_lettered ∧
      (transientRun cfg jit n cfg.max_attempts).attempts = cfg.max_attempts) ∧
    ∀ k, k < cfg.max_attempts →
      (transientRun cfg jit n k).status = .queued ∧
      (transientRun cfg jit n k).attempts = k := by
  constructor
  · obtain ⟨m, hm⟩ := Nat.exists_eq_succ_of_ne_zero (Nat.pos_iff_ne_zero.mp hM)
    have hrun : transientRun cfg jit n m =
        { status := .queued, attempts := m, priority := n.priority } :=
      transientRun_below cfg jit n h0 hq m (by omega)
    have hstep : transientRun cfg jit n cfg.max_attempts =
        (workerStep cfg (transientRun cfg jit n m) (jit m) .transient_error).1 := by
      rw [hm]
      rfl
    rw [hstep, hrun]
    have hnot : ¬ m + 1 < cfg.max_attempts := by omega
    simp [workerStep, hnot]
    omega
  · intro k hk
    rw [transientRun_below cfg jit n h0 hq k hk]
    exact ⟨rfl, rfl⟩

/-- Witness for `C3_retry_bound`: with the default `max_attempts = 5`, a
fresh notification hit only by transient errors is dead-lettered at exactly
five attempts and is still queued at every lower count. -/
theorem C3_witness :
    notifEx0.attempts = 0 ∧ notifEx0.status = .queued ∧ 0 < cfgEx.max_attempts ∧
    (((transientRun cfgEx (fun _ => 0) notifEx0 cfgEx.max_attempts).status = .dead_lettered ∧
        (transientRun cfgEx (fun _ => 0) notifEx0 cfgEx.max_attempts).attempts =
          cfgEx.max_attempts) ∧
      ∀ k, k < cfgEx.max_attempts →
        (transientRun cfgEx (fun _ => 0) notifEx0 k).status = .queued ∧
        (transientRun cfgEx (fun _ => 0) notifEx0 k).attempts = k) :=
  ⟨rfl, rfl, by decide,
    C3_retry_bound cfgEx (fun _ => 0) notifEx0 rfl rfl (by decide)⟩

/-- Claim C7: when the rate limiter denies a token, the worker leaves the
notification untouched — same `attempts`, same `status` — and re-enqueues
the entry into its own priority lane with a short jittered delay instead of
discarding it; a denial is not a delivery attempt. -/
theorem C7_rate_limited_requeue (cfg : DeliveryCfg) (n : Notif) (jitter : ℚ) :
    (workerStep cfg n jitter .rate_limited).1 = n ∧
    (workerStep cfg n jitter .rate_limited).1.attempts = n.attempts ∧
    (workerStep cfg n jitter .rate_limited).1.status = n.status ∧
    (workerStep cfg n jitter .rate_limited).2 =
      some { priority := n.priority, delay := cfg.requeue_delay + jitter } :=
  ⟨rfl, rfl, rfl, rfl⟩

/-- Claim C8: a retry scheduled for a transient failure below `max_attempts`
re-enqueues the entry at its original priority with delay
`min(base * 2^attempts, cap) + jitter`, which lies in the half-open
interval from `min(base * 2^attempts, cap)` (inclusive) to
`min(base * 2^attempts, cap) + jitter_window` (exclusive). -/
theorem C8_backoff_delay (cfg : DeliveryCfg) (n : Notif) (jitter : ℚ)
    (hj0 : 0 ≤ jitter) (hjw : jitter < cfg.jitter_window)
    (hlt : n.attempts + 1 < cfg.max_attempts) :
    (workerStep cfg n jitter .transient_error).2 =
      some { priority := n.priority,
             delay := backoffDelay cfg (n.attempts + 1) jitter } ∧
    min (cfg.base * 2 ^ (n.attempts + 1)) cfg.cap ≤
      backoffDelay cfg (n.attempts + 1) jitter ∧
    backoffDelay cfg (n.attempts + 1) jitter <
      min (cfg.base * 2 ^ (n.attempts + 1)) cfg.cap + cfg.jitter_window := by
  refine ⟨by simp [workerStep, hlt], ?_, ?_⟩ <;>
    simp only [backoffDelay] <;> linarith

/-- Witness for `C8_backoff_delay`: second retry of `notifEx` with jitter
draw 1 in a window of 2. -/
theorem C8_witness :
    (0 : ℚ) ≤ 1 ∧ (1 : ℚ) < cfgEx.jitter_window ∧
    notifEx.attempts + 1 < cfgEx.max_attempts ∧
    ((workerStep cfgEx notifEx 1 .transient_error).2 =
        some { priority := notifEx.priority,
               delay := backoffDelay cfgEx (notifEx.attempts + 1) 1 } ∧
      min (cfgEx.base * 2 ^ (notifEx.attempts + 1)) cfgEx.cap ≤
        backoffDelay cfgEx (notifEx.attempts + 1) 1 ∧
      backoffDelay cfgEx (notifEx.attempts + 1) 1 <
        min (cfgEx.base * 2 ^ (notifEx.attempts + 1)) cfgEx.cap +
          cfgEx.jitter_window) :=
  ⟨by norm_num, by norm_num [cfgEx], by norm_num [cfgEx, notifEx, maxAttemptsDefault],
    C8_backoff_delay cfgEx notifEx 1 (by norm_num) (by norm_num [cfgEx])
      (by norm_num [cfgEx, notifEx, maxAttemptsDefault])⟩

theorem mem_markRead (r : HistoryRow) (a x : String) :
    x ∈ (markRead r a).read_by ↔ x ∈ r.read_by ∨ x = a := by
  unfold markRead
  by_cases h : a ∈ r.read_by
  · simp only [if_pos h]
    constructor
    · exact Or.inl
    · rintro (hx | rfl)
      · exact hx
      · exact h
  · simp [if_neg h]

theorem nodup_markRead (r : HistoryRow) (a : String) (h : r.read_by.Nodup) :
    (markRead r a).read_by.Nodup := by
  unfold markRead
  by_cases hm : a ∈ r.read_by
  · simpa [if_pos hm] using h
  · simp [if_neg hm, List.nodup_append, h, hm]

theorem mem_markReadSeq (actors : List String) (r : HistoryRow) (x : String) :
    x ∈ (markReadSeq r actors).read_by ↔ x ∈ r.read_by ∨ x ∈ actors := by
  induction actors generalizing r with
  | nil => simp [markReadSeq]
  | cons a rest ih =>
      simp only [markReadSeq, ih, mem_markRead, List.mem_cons]
      tauto

theorem nodup_markReadSeq (actors : List String) (r : HistoryRow)
    (h : r.read_by.Nodup) : (markReadSeq r actors).read_by.Nodup := by
  induction actors generalizing r with
  | nil => exact h
  | cons a rest ih => exact ih _ (nodup_markRead r a h)

/-- Claim C5: `mark_read` is an idempotent set-insert — repeating an actor
is a no-op — and after any sequence of `mark_read` calls on a row with an
empty read set, `read_by` holds exactly the actors of the sequence: an
actor is present iff it was inserted, the set is duplicate-free, and for K
distinct actors it has exactly K elements. -/
theorem C5_read_set (r : HistoryRow) (h : r.read_by = []) (actors : List String) :
    (∀ (r' : HistoryRow) (a : String), markRead (markRead r' a) a = markRead r' a) ∧
    (∀ x, x ∈ (markReadSeq r actors).read_by ↔ x ∈ actors) ∧
    (markReadSeq r actors).read_by.Nodup ∧
    (actors.Nodup → (markReadSeq r actors).read_by.length = actors.length) := by
  have hnodup : (markReadSeq r actors).read_by.Nodup :=
    nodup_markReadSeq actors r (by rw [h]; exact List.nodup_nil)
  have hmem : ∀ x, x ∈ (markReadSeq r actors).read_by ↔ x ∈ actors := by
    intro x
    rw [mem_markReadSeq, h]
    simp
  refine ⟨?_, hmem, hnodup, ?_⟩
  · intro r' a
    by_cases hm : a ∈ r'.read_by <;> simp [markRead, hm]
  · intro hna
    exact ((List.perm_ext_iff_of_nodup hnodup hna).mpr hmem).length_eq

/-- Witness for `C5_read_set`: three distinct actors mark `historyEx` read. -/
theorem C5_witness :
    historyEx.read_by = [] ∧
    ((∀ (r' : HistoryRow) (a : String), markRead (markRead r' a) a = markRead r' a) ∧
      (∀ x, x ∈ (markReadSeq historyEx ["alice", "bob", "carol"]).read_by ↔
        x ∈ ["alice", "bob", "carol"]) ∧
      (markReadSeq historyEx ["alice", "bob", "carol"]).read_by.Nodup ∧
      ((["alice", "bob", "carol"] : List String).Nodup →
        (markReadSeq historyEx ["alice", "bob", "carol"]).read_by.length = 3)) :=
  ⟨rfl, C5_read_set historyEx rfl ["alice", "bob", "carol"]⟩

/-- Claim C10, as stated, is false on the schema: `notifications.insight_id`
carries no NOT NULL, so `nullInsightDB` is schema-valid although its
notification row references no insight row at all. -/
theorem C10_counterexample :
    dbValid nullInsightDB ∧
    ¬ ∀ r ∈ nullInsightDB.notifications,
        ∃ i ∈ nullInsightDB.insights, r.insight_id = some i.id := by
  decide

/-- Claim C10 amended: in every schema-valid state, every notification row
whose `insight_id` is non-NULL references an existing insight row, and
deleting an insight (with the schema's ON DELETE CASCADE) removes every
notification row referencing it and preserves schema validity. -/
theorem C10_amended (db : DBState) (h : dbValid db) (iid : Nat) :
    (∀ r ∈ db.notifications, ∀ j, r.insight_id = some j →
        ∃ i ∈ db.insights, i.id = j) ∧
    (∀ r ∈ (deleteInsight db iid).notifications, r.insight_id ≠ some iid) ∧
    dbValid (deleteInsight db iid) := by
  obtain ⟨h1, h2, h3⟩ := h
  refine ⟨?_, ?_, ?_, ?_, ?_⟩
  · intro r hr j hj
    rcases h3 r hr with hnone | ⟨i, hi, heq⟩
    · rw [hj] at hnone; cases hnone
    · rw [hj] at heq
      exact ⟨i, hi, (Option.some_injective _ heq.symm)⟩
  · intro r hr
    have := (List.mem_filter.mp hr).2
    simpa using this
  · have hs : ((db.insights.filter (fun i => i.id ≠ iid)).map InsightRow.id).Sublist
        (db.insights.map InsightRow.id) := (List.filter_sublist _).map _
    exact h1.sublist hs
  · have hs : ((db.notifications.filter (fun r => r.insight_id ≠ some iid)).map
        NotificationRow.id).Sublist (db.notifications.map NotificationRow.id) :=
      (List.filter_sublist _).map _
    exact h2.sublist hs
  · intro r hr
    obtain ⟨hmem, hkeep⟩ := List.mem_filter.mp hr
    rcases h3 r hmem with hnone | ⟨i, hi, heq⟩
    · exact Or.inl hnone
    · refine Or.inr ⟨i, List.mem_filter.mpr ⟨hi, ?_⟩, heq⟩
      have hne : r.insight_id ≠ some iid := by simpa using hkeep
      have : i.id ≠ iid := by
        intro hcontra
        exact hne (by rw [heq, hcontra])
      simpa using this

/-- Witness for `C10_amended` at the concrete state `cascadeDB` and insight
id 7. -/
theorem C10_witness :
    dbValid cascadeDB ∧
    (∀ r ∈ (deleteInsight cascadeDB 7).notifications, r.insight_id ≠ some 7) ∧
    dbValid (deleteInsight cascadeDB 7) :=
  ⟨by decide, (C10_amended cascadeDB (by decide) 7).2⟩

end BioNewsBot
